import Mathlib

/-!
Shallow embedding of `src/KatawaShoujoHD/renpy/display/text.py` (the rich-text
layout engine of the KatawaShoujoHDPatch repository), together with proofs
about the claims of the specification.

Modelling conventions:
* Python `int` is `Int` (with `Int.fdiv` for Python 2's floor division `/`),
  except where a quantity is provably non-negative and never subtracted,
  where `Nat` is used.
* Width measurement (`TextStyle.get_width`, backed by the font engine) is an
  explicit function parameter `w : Nat → String → Nat`; text styles that occur
  inside line-breaking triples are identified by a `Nat` identity token, since
  the Python code compares styles with `is` (object identity).
* `renpy.config.rtl` is modelled as `False` (the default configuration); the
  `log2vis` reordering of the external `_renpybidi` collaborator is therefore
  never applied inside `layout_width`.
* Fallible code returns `Option`/`Except`; loops without a structural bound
  (the `while True` retry loop of `subtitle_text_layout` and its estimate
  loop) take an explicit fuel argument and return `none` when it runs out.
-/

namespace KSHD

/-! ### `color` (text.py lines 53-91) -/

/-- An (r, g, b, a) tuple as returned by `color()`. -/
abbrev RGBA := Nat × Nat × Nat × Nat

/-- Value of a single hexadecimal digit, as accepted by Python's `int(c, 16)`
for a one-character string `c`. -/
def hexDigit? (c : Char) : Option Nat :=
  if '0' ≤ c ∧ c ≤ '9' then some (c.toNat - 48)
  else if 'a' ≤ c ∧ c ≤ 'f' then some (c.toNat - 87)
  else if 'A' ≤ c ∧ c ≤ 'F' then some (c.toNat - 55)
  else none

/-- `int(a + b, 16)` for two hexadecimal digit characters. -/
def hex2 (a b : Char) : Option Nat := do
  let x ← hexDigit? a
  let y ← hexDigit? b
  pure (16 * x + y)

/-- The body of `color()` after the optional `#` has been stripped: dispatch
on the digit count exactly as the `len(s)` chain of lines 68-89 does
(6-, 8-, 3- and 4-digit forms; anything else raises). -/
def colorCore : List Char → Option RGBA
  | [c1, c2, c3, c4, c5, c6] => do
      let r ← hex2 c1 c2
      let g ← hex2 c3 c4
      let b ← hex2 c5 c6
      pure (r, g, b, 255)
  | [c1, c2, c3, c4, c5, c6, c7, c8] => do
      let r ← hex2 c1 c2
      let g ← hex2 c3 c4
      let b ← hex2 c5 c6
      let a ← hex2 c7 c8
      pure (r, g, b, a)
  | [c1, c2, c3] => do
      let r ← hexDigit? c1
      let g ← hexDigit? c2
      let b ← hexDigit? c3
      pure (r * 0x11, g * 0x11, b * 0x11, 255)
  | [c1, c2, c3, c4] => do
      let r ← hexDigit? c1
      let g ← hexDigit? c2
      let b ← hexDigit? c3
      let a ← hexDigit? c4
      pure (r * 0x11, g * 0x11, b * 0x11, a * 0x11)
  | _ => none

/-- `if s[0] == '#': s = s[1:]` (line 65-66). -/
def stripHash (l : List Char) : List Char :=
  if l.head? = some '#' then l.tail else l

/-- `color(s)` (lines 53-91).  `none` models a raised exception: the explicit
`raise` for a bad digit count, the `IndexError` of `s[0]` on an empty string,
and a `ValueError` from `int(_, 16)` on a non-hex digit. -/
def color (s : String) : Option RGBA :=
  match s.data with
  | [] => none
  | l => colorCore (stripHash l)

/-! ### The Western tokenizer (text.py lines 253-333)

`western_text_regexp` is an alternation
`space | tag | untag | newline | word` scanned with `re.finditer`, which at
each position tries the alternatives in order and, when none matches,
silently skips one character.  Since `[^{}]+` cannot cross a brace, regex
backtracking never helps the `tag` alternative: it matches exactly when the
maximal brace-free run after `{` is non-empty and followed by `}`.  The
scanner below reproduces those semantics character-by-character. -/

/-- A character that can be part of a `word` match: `[^ \n{]`. -/
def wordChar (c : Char) : Bool := !(c = ' ' || c = '\n' || c = '{')

/-- A character matched by the `space` alternative `[ ​]`. -/
def spaceChar (c : Char) : Bool := c = ' ' || c = '​'

/-- A character allowed inside a `{...}` tag: `[^{}]`. -/
def tagChar (c : Char) : Bool := !(c = '{' || c = '}')

/-- One `re.finditer` pass of `western_text_regexp` over a character list,
yielding (token kind, token text) pairs the way `text_tokenizer` does
(lines 322-333); in particular `{{` is yielded as the word `{` and an
unmatched `{` is skipped without producing a token.  The first argument is
structural fuel; every step consumes at least one character, so fuel equal
to the list length (as supplied by `wtok`) is always sufficient. -/
def wtokF : Nat → List Char → List (String × List Char)
  | _, [] => []
  | 0, _ :: _ => []
  | fuel + 1, c :: rest =>
    if spaceChar c then ("space", [c]) :: wtokF fuel rest
    else if c = '\n' then ("newline", [c]) :: wtokF fuel rest
    else if c = '{' then
      let run := rest.takeWhile tagChar
      let rem := rest.drop run.length
      if run ≠ [] ∧ rem.head? = some '}' then ("tag", run) :: wtokF fuel rem.tail
      else if rest.head? = some '{' then ("word", ['{']) :: wtokF fuel rest.tail
      else wtokF fuel rest
    else
      ("word", c :: rest.takeWhile wordChar) ::
        wtokF fuel (rest.drop (rest.takeWhile wordChar).length)

/-- The finditer pass with adequate fuel. -/
def wtok (cs : List Char) : List (String × List Char) := wtokF cs.length cs

/-- `text_tokenizer(s, style)` for the Western grammar (`style.language ==
"western"`, the default). -/
def text_tokenizer (s : String) : List (String × String) :=
  (wtok s.data).map fun t => (t.1, String.mk t.2)

/-- Concatenation of the second components (payloads) of a token list, in
order. -/
def concatPayloads (toks : List (String × String)) : String :=
  toks.foldl (fun acc t => acc ++ t.2) ""

/-! ### `check_text_tags` (text.py lines 33-51 and 1520-1553) -/

/-- The `text_tags` table (lines 33-51): tag name ↦ whether a closing tag is
required.  The final entry is the `text_tags[""] = True` of line 51. -/
def text_tags : List (List Char × Bool) :=
  [("image".data, false), ("p".data, false), ("w".data, false),
   ("fast".data, false), ("b".data, true), ("i".data, true),
   ("u".data, true), ("a".data, true), ("plain".data, true),
   ("font".data, true), ("color".data, true), ("size".data, true),
   ("nw".data, false), ("s".data, true), ("st".data, true),
   ([], true)]

/-- Association-list search with decidable key equality (Python dict lookup
for exact keys). -/
def assocFind : List (List Char × Bool) → List Char → Option Bool
  | [], _ => none
  | kv :: rest, t => if t = kv.1 then some kv.2 else assocFind rest t

/-- Dictionary lookup in `text_tags`. -/
def lookupTag (t : List Char) : Option Bool := assocFind text_tags t

/-- `text[:text.find('=')]` when `'='` occurs in `text`, else `text`
(lines 1530-1531). -/
def stripArgs (t : List Char) : List Char := t.takeWhile (· ≠ '=')

/-- `", ".join(["'" + i + "'" for i in tag_stack])` (line 1551). -/
def quoteJoin (names : List (List Char)) : String :=
  String.intercalate ", " (names.map fun n => "'" ++ String.mk n ++ "'")

/-- The token loop of `check_text_tags` (lines 1523-1553) over the list of
already-argument-stripped tag texts.  The stack `st` stores the innermost
open tag first (Python keeps it at the end of the list). -/
def checkRun : List (List Char) → List (List Char) → Option String
  | st, [] =>
    if st = [] then none
    else some ("One or more text tags were left open at the end of the string: "
               ++ quoteJoin st.reverse)
  | st, t :: rest =>
    if t.head? = some '/' then
      match st with
      | [] => some ("Close text tag '" ++ String.mk t
                    ++ "' does not match an open text tag.")
      | top :: st' =>
        if top = t.tail then checkRun st' rest
        else some ("Close text tag '" ++ String.mk t
                   ++ "' does not match open text tag '" ++ String.mk top ++ "'.")
    else
      match lookupTag t with
      | none => some ("Text tag '" ++ String.mk t ++ "' is not known.")
      | some true => checkRun (t :: st) rest
      | some false => checkRun st rest

/-- The stripped tag texts of a string, in order: tag tokens of the Western
tokenizer (`check_text_tags` passes `style = None`), arguments stripped. -/
def strippedTags (s : String) : List (List Char) :=
  (wtok s.data).filterMap fun t => if t.1 = "tag" then some (stripArgs t.2) else none

/-- `check_text_tags(s)` (lines 1520-1553): `none` means the tags are
balanced, `some msg` is the returned diagnostic. -/
def check_text_tags (s : String) : Option String :=
  checkRun [] (strippedTags s)

/-- Specification-side definition of a balanced stripped-tag sequence: every
tag is known, non-scoping tags stand alone, and every scoping tag is closed
by its matching close tag in properly nested order. -/
inductive BalancedTags : List (List Char) → Prop
  | nil : BalancedTags []
  | selfClosing (t : List Char) (rest : List (List Char)) :
      lookupTag t = some false → BalancedTags rest → BalancedTags (t :: rest)
  | scope (t : List Char) (inner rest : List (List Char)) :
      lookupTag t = some true → BalancedTags inner → BalancedTags rest →
      BalancedTags (t :: inner ++ ('/' :: t) :: rest)

/-- Relation used for the completeness direction of the `check_text_tags`
proof: `ClosesStack st ts` says the tag sequence `ts` cleanly closes every
entry of the open-tag stack `st` (innermost first), interleaving balanced
chunks, and is balanced afterwards. -/
def ClosesStack : List (List Char) → List (List Char) → Prop
  | [], ts => BalancedTags ts
  | top :: st, ts => ∃ b rest, BalancedTags b ∧ ts = b ++ ('/' :: top) :: rest ∧
      ClosesStack st rest

/-! ### Line-breaking triples and `layout_width` (text.py lines 363-405)

A triple is `(type, ts, text)`.  The style `ts` is identified by a `Nat`
token, because the Python code distinguishes styles with `ts is not curts`
(object identity); its `get_width` method is the explicit parameter
`w : Nat → String → Nat`. -/

/-- A `(type, ts, text)` triple as consumed by the line breakers. -/
abbrev Triple := String × Nat × String

/-- Whether a triple is a space triple (`triple[0] == "space"`). -/
def isSpaceT (t : Triple) : Bool := t.1 == "space"

/-- Loop state of `layout_width`: accumulated width `rv`, current style
`curts` (`none` models Python's `None`), current joined string `cur`. -/
structure LWState where
  rv : Nat
  curts : Option Nat
  cur : String

/-- One iteration of the `for type, ts, i in triples` loop of `layout_width`
(lines 375-397). -/
def lwStep (w : Nat → String → Nat) (justify : Bool) (st : LWState) (t : Triple) :
    LWState :=
  if some t.2.1 ≠ st.curts then
    { rv := if st.cur ≠ "" then
              st.rv + (match st.curts with | some c => w c st.cur | none => 0)
            else st.rv,
      curts := some t.2.1, cur := t.2.2 }
  else if justify && t.1 == "space" then
    { rv := st.rv + w t.2.1 (st.cur ++ t.2.2), curts := st.curts, cur := "" }
  else
    { st with cur := st.cur ++ t.2.2 }

/-- `layout_width(triples, justify)` (lines 363-405), with
`renpy.config.rtl = False` so `log2vis` is never applied. -/
def layout_width (w : Nat → String → Nat) (justify : Bool) (triples : List Triple) :
    Nat :=
  let st := triples.foldl (lwStep w justify) ⟨0, none, ""⟩
  match st.curts with
  | some c => st.rv + w c st.cur
  | none => st.rv

/-! ### `greedy_text_layout` (text.py lines 408-475) -/

/-- The style fields read by the two line breakers. -/
structure TStyle where
  first_indent : Int
  rest_indent : Int
  justify : Bool
  subtitle_width : Int

/-- Loop state of `greedy_text_layout`. -/
structure GState where
  lines : List (List Triple)
  lines_last : List Bool
  line : List Triple
  target : Int
  after_newline : Bool

/-- One iteration of the `for triple in triples` loop of `greedy_text_layout`
(lines 433-464). -/
def greedyStep (w : Nat → String → Nat) (width ri : Int) (justify : Bool)
    (st : GState) (t : Triple) : GState :=
  if t.1 == "newline" then
    { lines := st.lines ++ [st.line], lines_last := st.lines_last ++ [true],
      line := [], target := width - ri, after_newline := true }
  else if t.1 == "space" then
    if st.line.isEmpty && !st.after_newline then st
    else { st with line := st.line ++ [t] }
  else
    if (layout_width w justify (st.line ++ [t]) : Int) > st.target then
      { lines := st.lines ++ [st.line], lines_last := st.lines_last ++ [false],
        line := [t], target := width - ri, after_newline := false }
    else
      { st with line := st.line ++ [t], after_newline := false }

/-- `if l and l[-1][0] == "space": l.pop()` — remove at most one trailing
space triple (line 472-473). -/
def popOneTrailingSpace (l : List Triple) : List Triple :=
  match l.getLast? with
  | some t => if isSpaceT t then l.dropLast else l
  | none => l

/-- Apply `popOneTrailingSpace` to every line except the last
(`for l in lines[:-1]`, lines 471-473). -/
def popTrailingButLast : List (List Triple) → List (List Triple)
  | [] => []
  | [l] => [l]
  | l :: rest => popOneTrailingSpace l :: popTrailingButLast rest

/-- `greedy_text_layout(triples, width, style)` (lines 408-475). -/
def greedy_text_layout (w : Nat → String → Nat) (triples : List Triple)
    (width : Int) (style : TStyle) : List (List Triple) × List Bool :=
  let st0 : GState := ⟨[], [], [], width - style.first_indent, true⟩
  let st := triples.foldl (greedyStep w width style.rest_indent style.justify) st0
  (popTrailingButLast (st.lines ++ [st.line]), st.lines_last ++ [true])

/-! ### `subtitle_text_layout_core` (text.py lines 478-550) -/

/-- Loop state of `subtitle_text_layout_core`.  `total`, `linesoft` and `n`
are `Int`: `total` can go negative through the subtractions, and `n` is
decremented below zero once the line estimate is exhausted. -/
structure CoreState where
  lines : List (List Triple)
  line : List Triple
  target : Int
  total : Int
  linesoft : Int
  n : Int

/-- One iteration of the `for triple in triples` loop of
`subtitle_text_layout_core` (lines 488-537).  Python 2's `total / n` is
floor division, hence `Int.fdiv`. -/
def coreStep (w : Nat → String → Nat) (justify : Bool) (width soft : Int)
    (st : CoreState) (t : Triple) : CoreState :=
  if t.1 == "space" then
    if st.line.isEmpty then st else { st with line := st.line ++ [t] }
  else
    let lw : Int := layout_width w justify (st.line ++ [t])
    if lw > st.target ∨ t.1 == "newline" then
      let n := st.n - 1
      let popped := match st.line.getLast? with
                    | some tl => if isSpaceT tl then st.line.dropLast else st.line
                    | none => st.line
      let line := if n > 0 then popped else st.line
      let total := if n > 0 then st.total - (layout_width w justify line : Int)
                   else st.total
      let linesoft := if n > 0 then total.fdiv n else soft
      { lines := st.lines ++ [line],
        line := if t.1 == "newline" then [] else [t],
        target := width, total := total, linesoft := linesoft, n := n }
    else
      let line := st.line ++ [t]
      if lw > st.linesoft then
        let n := st.n - 1
        let total := if n > 0 then st.total - lw else st.total
        let linesoft := if n > 0 then total.fdiv n else soft
        { lines := st.lines ++ [line], line := [], target := width,
          total := total, linesoft := linesoft, n := n }
      else
        { st with line := line }

/-- The per-line strip of lines 542-547: remove at most one trailing and
then at most one leading space triple. -/
def coreStrip (l : List Triple) : List Triple :=
  let l := match l.getLast? with
           | some tl => if isSpaceT tl then l.dropLast else l
           | none => l
  match l.head? with
  | some hd => if isSpaceT hd then l.tail else l
  | none => l

/-- `subtitle_text_layout_core(triples, width, style, soft, n, justify)`
(lines 478-550); the `style` parameter of the original is unused in its
body.  `nn` is the caller's `i`, always at least 1. -/
def subtitle_text_layout_core (w : Nat → String → Nat) (justify : Bool)
    (triples : List Triple) (width soft : Int) (nn : Nat) : List (List Triple) :=
  let st0 : CoreState :=
    ⟨[], [], width, soft * nn, (soft * (nn : Int)).fdiv nn, nn⟩
  let st := triples.foldl (coreStep w justify width soft) st0
  (st.lines ++ [st.line]).map coreStrip

/-! ### `subtitle_text_layout` (text.py lines 553-606) -/

/-- Paragraph split of lines 562-569: `pars = [[]]`, a newline triple starts
a new paragraph, every other triple is appended to the last one. -/
def splitPars : List Triple → List (List Triple)
  | [] => [[]]
  | t :: rest =>
    if t.1 == "newline" then [] :: splitPars rest
    else
      match splitPars rest with
      | p :: ps => (t :: p) :: ps
      | [] => [[t]]

/-- The re-tokenizing pass of lines 577-587: a word triple wider than the
hard width is exploded into one single-character word triple per character
of its payload. -/
def explodeWide (w : Nat → String → Nat) (justify : Bool) (width : Int)
    (par : List Triple) : List Triple :=
  par.flatMap fun t =>
    if (layout_width w justify [t] : Int) ≤ width ∨ t.1 ≠ "word" then [t]
    else t.2.2.data.map fun c => ("word", t.2.1, String.mk [c])

/-- The estimate loop of lines 591-593: the smallest `i ≥ 1` with
`sumwidths / i ≤ min(width, softwidth)`, searched by incrementing; the loop
has no structural bound (it diverges when the minimum is negative), so it
takes fuel and returns `none` on exhaustion. -/
def subtitleEstimate (m sumw : Int) : Nat → Nat → Option Nat
  | 0, _ => none
  | fuel + 1, i => if sumw.fdiv i > m then subtitleEstimate m sumw fuel (i + 1)
                   else some i

/-- The `while True` retry loop of lines 595-599: run the core pass with
`soft = sumwidths / i` and line estimate `i`; stop when it produces exactly
`i` lines, else retry with `i + 1`.  The loop has no bound in the source, so
it takes fuel and returns `none` on exhaustion; on success it returns the
final `i` together with the emitted lines. -/
def subtitleRetry (w : Nat → String → Nat) (justify : Bool)
    (triples : List Triple) (width sumw : Int) :
    Nat → Nat → Option (Nat × List (List Triple))
  | 0, _ => none
  | fuel + 1, i =>
    let rv := subtitle_text_layout_core w justify triples width (sumw.fdiv i) i
    if rv.length = i then some (i, rv)
    else subtitleRetry w justify triples width sumw fuel (i + 1)

/-- The per-paragraph body of `subtitle_text_layout` (lines 576-604),
threaded over the accumulated `(lines, lines_last)` pair.  Note the faithful
reproduction of the flag loop of lines 602-604: it appends
`len(lines) - 1` copies of `False` where `lines` is the list of all lines
accumulated so far, not the lines of the current paragraph. -/
def subtitlePar (w : Nat → String → Nat) (justify : Bool) (width softwidth : Int)
    (fuel : Nat) (acc : List (List Triple) × List Bool) (par : List Triple) :
    Option (List (List Triple) × List Bool) := do
  let ptr := explodeWide w justify width par
  let sumw : Int := layout_width w justify ptr
  let i0 ← subtitleEstimate (min width softwidth) sumw fuel 1
  let (_, rv) ← subtitleRetry w justify ptr width sumw fuel i0
  let lines := acc.1 ++ rv
  let flags := acc.2 ++ List.replicate (lines.length - 1) false ++ [true]
  pure (lines, flags)

/-- `subtitle_text_layout(triples, width, style)` (lines 553-606).
`style.subtitle_width` is modelled as an absolute `Int` (the float-fraction
variant of lines 558-559 is a pre-scaling of the same value). -/
def subtitle_text_layout (w : Nat → String → Nat) (fuel : Nat)
    (triples : List Triple) (width : Int) (style : TStyle) :
    Option (List (List Triple) × List Bool) :=
  (splitPars triples).foldlM
    (subtitlePar w style.justify width style.subtitle_width fuel) ([], [])

/-! ### `TextStyle.get_width` and its width cache (text.py lines 116-137)

`self.wcache` is a Python dict whose keys end up holding both strings (the
intended keys) and integers (what line 136 actually writes); a key is
therefore `String ⊕ Nat`, and so is a stored value. -/

/-- A key or value of the `wcache` dict: a text (`String`) or a width
(`Nat`). -/
abbrev WEntry := String ⊕ Nat

/-- `dict.get(k, None)` on an association list. -/
def dictGet (m : List (WEntry × WEntry)) (k : WEntry) : Option WEntry :=
  m.lookup k

/-- `dict[k] = v`: replace an existing binding or append a new one. -/
def dictSet (m : List (WEntry × WEntry)) (k v : WEntry) : List (WEntry × WEntry) :=
  if m.any (·.1 == k) then m.map fun p => if p.1 == k then (k, v) else p
  else m ++ [(k, v)]

/-- Result of one `get_width` call: the returned value, the cache afterwards,
and whether the font backend (`self.f.size`) was invoked. -/
structure GetWidthResult where
  rv : WEntry
  wcache : List (WEntry × WEntry)
  backendCalled : Bool
deriving DecidableEq, Repr

/-- `TextStyle.get_width(text)` (lines 131-137) for a style whose font
backend measures `text` as `f text`.  Line 136 is reproduced exactly as
written in the source: `self.wcache[rv] = text`. -/
def get_width (f : String → Nat) (wcache : List (WEntry × WEntry))
    (text : String) : GetWidthResult :=
  match dictGet wcache (Sum.inl text) with
  | some v => ⟨v, wcache, false⟩
  | none => ⟨Sum.inr (f text), dictSet wcache (Sum.inr (f text)) (Sum.inl text), true⟩

/-! ### The tag/style stack machine of `Text.layout` (text.py lines 914-1156)

External collaborators (named styles from `renpy.store.style`, the hyperlink
styler, focus state) are supplied through a `LayoutConfig`. -/

/-- The mutable style record built by `TextStyle()` in `Text.layout`
(the fields set in lines 99-111/938-946; the cached font `f` and the
caches are not part of the value). -/
structure TextStyleV where
  font : String
  size : Int
  bold : Bool
  italic : Bool
  underline : Bool
  strikethrough : Bool
  color : Option RGBA
  black_color : Option RGBA
  hyperlink : Option Nat
deriving DecidableEq, Repr

instance : Inhabited TextStyleV :=
  ⟨⟨"", 0, false, false, false, false, none, none, none⟩⟩

/-- The style slot of a triple produced by `Text.layout`: a `TextStyle`
value, or the `WidgetStyle` wrapper built for a widget token (modelled
opaquely by the widget's identifier). -/
inductive TagStyle
  | text (ts : TextStyleV)
  | widget (id : String)
deriving DecidableEq, Repr

/-- A `(kind, style, text)` triple emitted by the tag machine. -/
abbrev TagTriple := String × TagStyle × String

/-- An external style record as read from `renpy.store.style` members or
from the hyperlink styler (the eight fields copied in lines 1025-1032 and
1070-1077). -/
structure ExtStyle where
  font : String
  size : Int
  bold : Bool
  italic : Bool
  underline : Bool
  strikethrough : Bool
  color : Option RGBA
  black_color : Option RGBA
deriving DecidableEq, Repr

/-- External inputs of the tag machine. -/
structure LayoutConfig where
  base : ExtStyle
  namedStyles : String → Option ExtStyle
  hyperlinkStyle : String → String → ExtStyle
  focusArg : Option Nat
  activated : Bool

/-- State of the tag machine: the style stack `tsl` (innermost scope first;
Python keeps it at the end of its list), the emitted triples, and the
hyperlink table. -/
structure TagState where
  tsl : List TextStyleV
  triples : List TagTriple
  hyperlinks : List String
deriving DecidableEq, Repr

/-- `tsl[-1]`, the innermost style. -/
def topStyle (st : TagState) : TextStyleV := st.tsl.headD default

/-- `tsl.append(TextStyle(...))`. -/
def pushTS (st : TagState) (ts : TextStyleV) : TagState :=
  { st with tsl := ts :: st.tsl }

/-- The argument of a `size=` tag: `re.match(r'size=(\+|-|)(\d+)', i)`
applied to the part after `size`, returning the update applied to
`tsl[-1].size` in lines 1100-1105 (trailing junk after the digits is
ignored, as with `re.match`). -/
def parseSizeArg (r : String) : Option (Int → Int) :=
  match r.data with
  | '=' :: rest =>
    match rest with
    | '+' :: ds =>
      let run := ds.takeWhile Char.isDigit
      if run = [] then none
      else some fun old => old + (run.foldl (fun a c => 10 * a + (c.toNat - 48)) 0 : Int)
    | '-' :: ds =>
      let run := ds.takeWhile Char.isDigit
      if run = [] then none
      else some fun old => old - (run.foldl (fun a c => 10 * a + (c.toNat - 48)) 0 : Int)
    | ds =>
      let run := ds.takeWhile Char.isDigit
      if run = [] then none
      else some fun _ => (run.foldl (fun a c => 10 * a + (c.toNat - 48)) 0 : Int)
  | _ => none

/-- A character of the class `[a-fA-F0-9]` of the color-tag pattern. -/
def isHexChar (c : Char) : Bool :=
  ('0' ≤ c ∧ c ≤ '9') || ('a' ≤ c ∧ c ≤ 'f') || ('A' ≤ c ∧ c ≤ 'F')

/-- The argument of a `color=` tag: `re.match(r'color=(\#?[a-fA-F0-9]+)', i)`
applied to the part after `color`, returning the captured group (an optional
`#` followed by the maximal hex-digit run; trailing junk is ignored). -/
def parseColorArg (r : String) : Option String :=
  match r.data with
  | '=' :: rest =>
    match rest with
    | '#' :: body =>
      let run := body.takeWhile isHexChar
      if run = [] then none else some (String.mk ('#' :: run))
    | body =>
      let run := body.takeWhile isHexChar
      if run = [] then none else some (String.mk run)
  | _ => none

/-- One iteration of the `for kind, i in ti` loop of `Text.layout`
(lines 964-1146).  `Except.error` models a raised exception. -/
def layoutTagStep (cfg : LayoutConfig) (st : TagState) (tok : String × String) :
    Except String TagState :=
  let (kind, i) := tok
  if kind = "newline" then
    .ok { st with triples := st.triples ++ [("newline", .text (topStyle st), "")] }
  else if kind = "tag" then
    if i.data.head? = some '/' then
      match st.tsl with
      | [] => .error "IndexError: pop from empty list"
      | _ :: rest =>
        if rest = [] then
          .error ("Closing tag " ++ i ++ " does not match an open tag.")
        else .ok { st with tsl := rest }
    else if i = "w" then .ok st
    else if i = "nw" then .ok st
    else if i.startsWith "w=" then .ok st
    else if i = "fast" then
      .ok { st with triples := st.triples ++ [("start", .text (topStyle st), "")] }
    else if i.startsWith "a=" then
      let target := i.drop 2
      let link := st.hyperlinks.length
      let pfx := if cfg.focusArg = some link then
                   (if cfg.activated then "activate_" else "hover_")
                 else "idle_"
      let hls := cfg.hyperlinkStyle target pfx
      let nts : TextStyleV :=
        { font := hls.font, size := hls.size, bold := hls.bold,
          italic := hls.italic, underline := hls.underline,
          strikethrough := hls.strikethrough, color := hls.color,
          black_color := hls.black_color, hyperlink := some link }
      .ok { st with tsl := nts :: st.tsl, hyperlinks := st.hyperlinks ++ [target] }
    else
      let base := topStyle st
      if i = "b" then .ok (pushTS st { base with bold := true })
      else if i = "i" then .ok (pushTS st { base with italic := true })
      else if i = "u" then .ok (pushTS st { base with underline := true })
      else if i = "s" then .ok (pushTS st { base with strikethrough := true })
      else if i = "plain" then
        .ok (pushTS st { base with bold := false, italic := false, underline := false })
      else if i.data.head? = some '=' then
        match cfg.namedStyles (i.drop 1) with
        | none => .error ("AttributeError: style has no attribute " ++ i.drop 1)
        | some sty =>
          .ok (pushTS st
            { base with
              font := sty.font, size := sty.size, bold := sty.bold,
              italic := sty.italic, underline := sty.underline,
              strikethrough := sty.strikethrough, color := sty.color,
              black_color := sty.black_color })
      else if i.startsWith "font" then
        if i.startsWith "font=" then .ok (pushTS st { base with font := i.drop 5 })
        else .error ("Font tag " ++ i ++ " could not be parsed.")
      else if i.startsWith "size" then
        match parseSizeArg (i.drop 4) with
        | some f => .ok (pushTS st { base with size := f base.size })
        | none => .error ("Size tag " ++ i ++ " could not be parsed.")
      else if i.startsWith "color" then
        match parseColorArg (i.drop 5) with
        | none => .error ("Color tag " ++ i ++ " could not be parsed.")
        | some hexs =>
          match color hexs with
          | none => .error "Argument to color() must be 3, 4, 6, or 8 hex digits long."
          | some c => .ok (pushTS st { base with color := some c })
      else
        .error ("Text tag " ++ i ++ " was not recognized. Case and spacing matter here.")
  else if kind = "space" then
    .ok { st with triples := st.triples ++ [("space", .text (topStyle st), i)] }
  else if kind = "word" then
    .ok { st with triples := st.triples ++ [("word", .text (topStyle st), i)] }
  else if kind = "widget" then
    .ok { st with triples := st.triples ++ [("word", .widget i, i)] }
  else .error ("Unknown text token kind " ++ kind ++ ".")

/-- The token loop of `Text.layout`, from a given state.  After the loop the
source (lines 1150-1151) evaluates `Exception("A tag was left open at the
end of the text.")` without a `raise` statement, so the pass returns
normally whatever the final stack depth is — this embedding reproduces that
by returning `.ok` at the end of the tokens unconditionally. -/
def layoutTagRunFrom (cfg : LayoutConfig) (st : TagState) :
    List (String × String) → Except String TagState
  | [] => .ok st
  | t :: rest =>
    match layoutTagStep cfg st t with
    | .error e => .error e
    | .ok st' => layoutTagRunFrom cfg st' rest

/-- The root style pushed in lines 935-947: fonts and flags from the widget
style, colors and hyperlink cleared. -/
def rootStyle (cfg : LayoutConfig) : TextStyleV :=
  { font := cfg.base.font, size := cfg.base.size, bold := cfg.base.bold,
    italic := cfg.base.italic, underline := cfg.base.underline,
    strikethrough := cfg.base.strikethrough, color := none,
    black_color := none, hyperlink := none }

/-- The whole tag-processing pass of `Text.layout` (lines 932-1151) on a
token list. -/
def layoutTagRun (cfg : LayoutConfig) (tokens : List (String × String)) :
    Except String TagState :=
  layoutTagRunFrom cfg ⟨[rootStyle cfg], [], []⟩ tokens

/-- A concrete configuration with trivial external collaborators, used for
the concrete evaluations below. -/
def cfg0 : LayoutConfig :=
  { base := ⟨"DejaVuSans.ttf", 22, false, false, false, false, none, none⟩,
    namedStyles := fun _ => none,
    hyperlinkStyle := fun _ _ => ⟨"DejaVuSans.ttf", 22, false, false, true, false, none, none⟩,
    focusArg := none,
    activated := false }

/-- The width function used in concrete evaluations: every character is one
unit wide, so a string's width is its length. -/
def lenw : Nat → String → Nat := fun _ s => s.length

/-- All trailing space triples of a line removed (specification-side helper
for stating the corrected greedy width bound; the source code itself only
removes one trailing space per line). -/
def stripTrailingSpaces (l : List Triple) : List Triple :=
  (l.reverse.dropWhile isSpaceT).reverse

/-- The invariant used for the corrected C9 statement. -/
def C9P (st : GState) : Prop :=
  st.lines.length = st.lines_last.length
  ∧ (∀ j L t, st.lines[j]? = some L → L.head? = some t → isSpaceT t →
      j = 0 ∨ st.lines_last[j - 1]? = some true)
  ∧ (∀ t, st.line.head? = some t → isSpaceT t →
      st.lines_last = [] ∨ st.lines_last.getLast? = some true)
  ∧ (st.after_newline = true →
      st.lines_last = [] ∨ st.lines_last.getLast? = some true)

/-- The invariant used for the corrected C3 statement: flushed non-final
lines and the current buffer fit their targets once all trailing spaces are
discarded, except for buffers holding at most a single content triple. -/
def C3P (w : Nat → String → Nat) (justify : Bool) (T1 T2 : Int) (st : GState) : Prop :=
  st.lines.length = st.lines_last.length
  ∧ st.target = (if st.lines_last = [] then T1 else T2)
  ∧ (∀ j L, st.lines[j]? = some L → st.lines_last[j]? = some false →
      (layout_width w justify (stripTrailingSpaces L) : Int) ≤ (if j = 0 then T1 else T2)
      ∨ (stripTrailingSpaces L).length ≤ 1)
  ∧ ((layout_width w justify (stripTrailingSpaces st.line) : Int) ≤ st.target
      ∨ (stripTrailingSpaces st.line).length ≤ 1)

/-!
## Theorems

First a few helper lemmas, then one theorem (plus witness or counterexample
where applicable) per claim.
-/

theorem hexDigit_ne_hash {c : Char} {v : Nat} (h : hexDigit? c = some v) :
    ¬ c = '#' := by
  intro hc
  subst hc
  simp [hexDigit?] at h

theorem hex2_eq {a b : Char} {x y : Nat} (ha : hexDigit? a = some x)
    (hb : hexDigit? b = some y) : hex2 a b = some (16 * x + y) := by
  simp [hex2, ha, hb]

theorem colorCore_other_length (l : List Char) (h3 : l.length ≠ 3)
    (h4 : l.length ≠ 4) (h6 : l.length ≠ 6) (h8 : l.length ≠ 8) :
    colorCore l = none := by
  rcases l with _ | ⟨a, _ | ⟨b, _ | ⟨c, _ | ⟨d, _ | ⟨e, _ | ⟨f, _ | ⟨g, _ | ⟨h, _ | ⟨i, t⟩⟩⟩⟩⟩⟩⟩⟩⟩ <;>
    first
      | rfl
      | simp at h3 h4 h6 h8

theorem drop_len_takeWhile (p : Char → Bool) (l : List Char) :
    l.drop (l.takeWhile p).length = l.dropWhile p := by
  induction l with
  | nil => rfl
  | cons c rest ih =>
    by_cases h : p c
    · simp [List.takeWhile_cons, List.dropWhile_cons, h, ih]
    · simp [List.takeWhile_cons, List.dropWhile_cons, h]

/-- Concatenating the payloads of the Western tokenizer reproduces the input
as long as it contains no brace: every such character is covered by exactly
one `space`/`newline`/`word` token whose payload is the matched text. -/
theorem wtokF_concat (fuel : Nat) : ∀ (cs : List Char), cs.length ≤ fuel →
    '{' ∉ cs → ((wtokF fuel cs).map (fun t => t.2)).flatten = cs := by
  induction fuel with
  | zero =>
    intro cs hle _
    cases cs with
    | nil => rfl
    | cons c rest => simp at hle
  | succ fuel ih =>
    intro cs hle h
    cases cs with
    | nil => rfl
    | cons c rest =>
      have hlr : rest.length ≤ fuel := by
        simp only [List.length_cons] at hle
        omega
      by_cases hsp : spaceChar c
      · rw [wtokF, if_pos hsp]
        have hr : '{' ∉ rest := fun hm => h (List.mem_cons_of_mem _ hm)
        simp [ih rest hlr hr]
      · by_cases hnl : c = '\n'
        · rw [wtokF, if_neg hsp, if_pos hnl]
          have hr : '{' ∉ rest := fun hm => h (List.mem_cons_of_mem _ hm)
          simp [ih rest hlr hr, hnl]
        · by_cases hbr : c = '{'
          · subst hbr
            exact absurd (List.mem_cons_self _ _) h
          · rw [wtokF, if_neg hsp, if_neg hnl, if_neg hbr]
            have hld : (rest.drop (rest.takeWhile wordChar).length).length ≤ fuel := by
              rw [List.length_drop]
              omega
            have hr : '{' ∉ rest.drop (rest.takeWhile wordChar).length := fun hm =>
              h (List.mem_cons_of_mem _ (List.mem_of_mem_drop hm))
            simp only [List.map_cons, List.flatten_cons, ih _ hld hr, List.cons_append]
            rw [drop_len_takeWhile, List.takeWhile_append_dropWhile]

theorem wtok_concat (cs : List Char) (h : '{' ∉ cs) :
    ((wtok cs).map (fun t => t.2)).flatten = cs :=
  wtokF_concat cs.length cs le_rfl h

theorem string_foldl_append (l : List (String × String)) (acc : String) :
    (l.foldl (fun a t => a ++ t.2) acc).data
      = acc.data ++ (l.map (fun t => t.2.data)).flatten := by
  induction l generalizing acc with
  | nil => simp
  | cons t rest ih => simp [ih, String.data_append]

theorem assocFind_head {m : List (List Char × Bool)} {t : List Char} {b : Bool}
    (hkeys : ∀ kv ∈ m, kv.1.head? ≠ some '/')
    (h : assocFind m t = some b) : ¬ t.head? = some '/' := by
  induction m with
  | nil => simp [assocFind] at h
  | cons kv rest ih =>
    rw [assocFind] at h
    split at h
    · next heq =>
      subst heq
      exact hkeys kv (List.mem_cons_self _ _)
    · exact ih (fun kv hm => hkeys kv (List.mem_cons_of_mem _ hm)) h

theorem lookupTag_not_close {t : List Char} {b : Bool} (h : lookupTag t = some b) :
    ¬ t.head? = some '/' :=
  assocFind_head (by decide) h

theorem balanced_checkRun {ts : List (List Char)} (hb : BalancedTags ts) :
    ∀ (st : List (List Char)) (k : List (List Char)),
      checkRun st (ts ++ k) = checkRun st k := by
  induction hb with
  | nil => intro st k; rfl
  | selfClosing t rest hlk hbr ih =>
    intro st k
    rw [List.cons_append]
    simp only [checkRun, if_neg (lookupTag_not_close hlk), hlk]
    exact ih st k
  | scope t inner rest hlk hbi hbr ih_i ih_r =>
    intro st k
    have h1 : (t :: inner ++ ('/' :: t) :: rest) ++ k
        = t :: (inner ++ (('/' :: t) :: (rest ++ k))) := by simp
    rw [h1]
    simp only [checkRun, if_neg (lookupTag_not_close hlk), hlk]
    rw [ih_i]
    simp only [checkRun, List.head?_cons, if_pos rfl, List.tail_cons]
    exact ih_r st k

theorem checkRun_closes : ∀ (ts st : List (List Char)),
    checkRun st ts = none → ClosesStack st ts := by
  intro ts
  induction ts with
  | nil =>
    intro st h
    by_cases hst : st = []
    · subst hst; exact BalancedTags.nil
    · rw [checkRun, if_neg hst] at h; simp at h
  | cons t rest ih =>
    intro st h
    simp only [checkRun] at h
    by_cases hhd : t.head? = some '/'
    · rw [if_pos hhd] at h
      cases st with
      | nil => simp at h
      | cons top st' =>
        dsimp only at h
        by_cases htop : top = t.tail
        · rw [if_pos htop] at h
          have hcl := ih st' h
          obtain ⟨c, tl, rfl⟩ : ∃ c tl, t = c :: tl := by
            cases t with
            | nil => simp at hhd
            | cons c tl => exact ⟨c, tl, rfl⟩
          have hc : c = '/' := by simpa using hhd
          subst hc
          exact ⟨[], rest, BalancedTags.nil, by simp [htop], hcl⟩
        · rw [if_neg htop] at h; simp at h
    · rw [if_neg hhd] at h
      cases hlk : lookupTag t with
      | none => rw [hlk] at h; simp at h
      | some b =>
        rw [hlk] at h
        cases b with
        | true =>
          have hcl := ih (t :: st) h
          cases st with
          | nil =>
            obtain ⟨b1, r1, hb1, heq, hcl1⟩ := hcl
            show BalancedTags (t :: rest)
            rw [heq]
            exact BalancedTags.scope t b1 r1 hlk hb1 hcl1
          | cons top st'' =>
            obtain ⟨b1, r1, hb1, heq, hcl1⟩ := hcl
            obtain ⟨b2, r2, hb2, heq2, hcl2⟩ := hcl1
            refine ⟨t :: b1 ++ ('/' :: t) :: b2, r2,
              BalancedTags.scope t b1 b2 hlk hb1 hb2, ?_, hcl2⟩
            simp [heq, heq2]
        | false =>
          have hcl := ih st h
          cases st with
          | nil => exact BalancedTags.selfClosing t rest hlk hcl
          | cons top st'' =>
            obtain ⟨b1, r1, hb1, heq, hcl1⟩ := hcl
            exact ⟨t :: b1, r1, BalancedTags.selfClosing t b1 hlk hb1, by simp [heq], hcl1⟩

/-- C8: the validator.  `check_text_tags` returns `none` exactly on strings
whose stripped tag sequence is balanced (every tag known, every scoping tag
closed by its matching close tag in properly nested order), so every string
with an unclosed scope tag, a mismatched close tag or an unknown tag name
gets a non-null diagnostic; and on `"{b}bold"` the diagnostic names `b` as
left open. -/
theorem C8_validator_iff_balanced :
    (∀ s : String, check_text_tags s = none ↔ BalancedTags (strippedTags s)) ∧
    check_text_tags "\x7bb\x7dbold"
      = some "One or more text tags were left open at the end of the string: 'b'" := by
  constructor
  · intro s
    constructor
    · intro h
      exact checkRun_closes (strippedTags s) [] h
    · intro hb
      have h := balanced_checkRun hb [] []
      simpa [check_text_tags] using h
  · decide

/-- C1.  The claim says that a tag-processing pass ending at stack depth
greater than 1 makes `Text.layout` raise an unclosed-tag error.  The code
disagrees: line 1151 constructs `Exception("A tag was left open at the end
of the text.")` but never raises it, so on the token stream of `"{b}x"` the
pass completes normally (`.ok`, hence `toOption = some _`) with final stack
depth 2. -/
theorem C1_open_tag_not_raised :
    (layoutTagRun cfg0 [("tag", "b"), ("word", "x")]).toOption.map
      (fun st => st.tsl.length) = some 2 := by
  decide

/-- Counterexample to C2: the close tag `/i` processed against the open tag
`b` pops the `b` scope and the pass completes without any error, although
the popped scope's opening tag name differs from `i`. -/
theorem C2_close_name_mismatch_not_detected :
    (layoutTagRun cfg0 [("tag", "b"), ("word", "x"), ("tag", "/i")]).toOption.map
      (fun st => st.tsl.length) = some 1 := by
  decide

/-- C5.  On the two-paragraph input `a`↵`b` the flag loop of lines 602-604
iterates over all accumulated lines instead of the current paragraph's
lines, so `subtitle_text_layout` returns 2 lines but 3 flags: the returned
flag list is not parallel to the returned line list. -/
theorem C5_flag_list_not_parallel :
    subtitle_text_layout lenw 50
        [("word", 0, "a"), ("newline", 0, "\n"), ("word", 0, "b")] 100
        ⟨0, 0, false, 100⟩
      = some ([[("word", 0, "a")], [("word", 0, "b")]], [true, false, true])
    ∧ (subtitle_text_layout lenw 50
        [("word", 0, "a"), ("newline", 0, "\n"), ("word", 0, "b")] 100
        ⟨0, 0, false, 100⟩).map (fun p => (p.1.length, p.2.length))
      = some (2, 3) := by
  constructor <;> decide

/-- C10.  `get_width` writes `self.wcache[rv] = text` (line 136), with key
and value swapped, so after measuring `"ab"` the cache maps the width 2 to
the text instead of the text to the width; the lookup `wcache.get(text)`
therefore never hits and a second identical call invokes the font backend
again. -/
theorem C10_width_cache_key_value_swapped :
    get_width String.length [] "ab"
      = ⟨Sum.inr 2, [(Sum.inr 2, Sum.inl "ab")], true⟩
    ∧ dictGet (get_width String.length [] "ab").wcache (Sum.inl "ab") = none
    ∧ (get_width String.length
        (get_width String.length [] "ab").wcache "ab").backendCalled = true := by
  refine ⟨by decide, by decide, by decide⟩

/-- C6: the color-literal grammar.  Strings of 6, 8, 3 or 4 hex digits with
an optional leading `#` parse as RRGGBB, RRGGBBAA, RGB, RGBA, with each
nibble duplicated (`v * 17`) in the short forms and a missing alpha read as
255; any other digit count is an error (`none`); and the two concrete
examples of the specification hold. -/
theorem C6_color_literal_grammar :
    (∀ c1 c2 c3 c4 c5 c6 v1 v2 v3 v4 v5 v6,
      hexDigit? c1 = some v1 → hexDigit? c2 = some v2 → hexDigit? c3 = some v3 →
      hexDigit? c4 = some v4 → hexDigit? c5 = some v5 → hexDigit? c6 = some v6 →
      color (String.mk [c1, c2, c3, c4, c5, c6])
          = some (16 * v1 + v2, 16 * v3 + v4, 16 * v5 + v6, 255)
        ∧ color (String.mk ('#' :: [c1, c2, c3, c4, c5, c6]))
          = some (16 * v1 + v2, 16 * v3 + v4, 16 * v5 + v6, 255)) ∧
    (∀ c1 c2 c3 c4 c5 c6 c7 c8 v1 v2 v3 v4 v5 v6 v7 v8,
      hexDigit? c1 = some v1 → hexDigit? c2 = some v2 → hexDigit? c3 = some v3 →
      hexDigit? c4 = some v4 → hexDigit? c5 = some v5 → hexDigit? c6 = some v6 →
      hexDigit? c7 = some v7 → hexDigit? c8 = some v8 →
      color (String.mk [c1, c2, c3, c4, c5, c6, c7, c8])
          = some (16 * v1 + v2, 16 * v3 + v4, 16 * v5 + v6, 16 * v7 + v8)
        ∧ color (String.mk ('#' :: [c1, c2, c3, c4, c5, c6, c7, c8]))
          = some (16 * v1 + v2, 16 * v3 + v4, 16 * v5 + v6, 16 * v7 + v8)) ∧
    (∀ c1 c2 c3 v1 v2 v3,
      hexDigit? c1 = some v1 → hexDigit? c2 = some v2 → hexDigit? c3 = some v3 →
      color (String.mk [c1, c2, c3]) = some (v1 * 17, v2 * 17, v3 * 17, 255)
        ∧ color (String.mk ('#' :: [c1, c2, c3]))
          = some (v1 * 17, v2 * 17, v3 * 17, 255)) ∧
    (∀ c1 c2 c3 c4 v1 v2 v3 v4,
      hexDigit? c1 = some v1 → hexDigit? c2 = some v2 → hexDigit? c3 = some v3 →
      hexDigit? c4 = some v4 →
      color (String.mk [c1, c2, c3, c4])
          = some (v1 * 17, v2 * 17, v3 * 17, v4 * 17)
        ∧ color (String.mk ('#' :: [c1, c2, c3, c4]))
          = some (v1 * 17, v2 * 17, v3 * 17, v4 * 17)) ∧
    (∀ s : String, (stripHash s.data).length ≠ 3 → (stripHash s.data).length ≠ 4 →
      (stripHash s.data).length ≠ 6 → (stripHash s.data).length ≠ 8 →
      color s = none) ∧
    color "#F00" = some (255, 0, 0, 255) ∧
    color "08f0" = some (0, 136, 255, 0) := by
  refine ⟨?_, ?_, ?_, ?_, ?_, by decide, by decide⟩
  · intro c1 c2 c3 c4 c5 c6 v1 v2 v3 v4 v5 v6 h1 h2 h3 h4 h5 h6
    constructor <;>
      simp [color, stripHash, colorCore, hex2_eq h1 h2, hex2_eq h3 h4,
            hex2_eq h5 h6, hexDigit_ne_hash h1]
  · intro c1 c2 c3 c4 c5 c6 c7 c8 v1 v2 v3 v4 v5 v6 v7 v8 h1 h2 h3 h4 h5 h6 h7 h8
    constructor <;>
      simp [color, stripHash, colorCore, hex2_eq h1 h2, hex2_eq h3 h4,
            hex2_eq h5 h6, hex2_eq h7 h8, hexDigit_ne_hash h1]
  · intro c1 c2 c3 v1 v2 v3 h1 h2 h3
    constructor <;>
      simp [color, stripHash, colorCore, h1, h2, h3, hexDigit_ne_hash h1]
  · intro c1 c2 c3 c4 v1 v2 v3 v4 h1 h2 h3 h4
    constructor <;>
      simp [color, stripHash, colorCore, h1, h2, h3, h4, hexDigit_ne_hash h1]
  · intro s h3 h4 h6 h8
    unfold color
    cases hs : s.data with
    | nil => rfl
    | cons c l =>
      rw [hs] at h3 h4 h6 h8
      exact colorCore_other_length _ h3 h4 h6 h8

/-- Witness for C6, discharging the hexadecimal-digit hypotheses at the
concrete input `"c0c0c0"` from the function's own docstring. -/
theorem C6_color_literal_grammar_witness :
    color (String.mk ['c', '0', 'c', '0', 'c', '0'])
      = some (16 * 12 + 0, 16 * 12 + 0, 16 * 12 + 0, 255) :=
  (C6_color_literal_grammar.1 'c' '0' 'c' '0' 'c' '0' 12 0 12 0 12 0
    (by decide) (by decide) (by decide) (by decide) (by decide) (by decide)).1

theorem layoutTagStep_close (cfg : LayoutConfig) (st : TagState) (n : String) :
    layoutTagStep cfg st ("tag", "/" ++ n) =
      match st.tsl with
      | [] => .error "IndexError: pop from empty list"
      | _ :: rest =>
        if rest = [] then
          .error ("Closing tag " ++ ("/" ++ n) ++ " does not match an open tag.")
        else .ok { st with tsl := rest } := by
  simp only [layoutTagStep]
  rw [if_pos trivial,
      if_pos (by simp [String.data_append] : ("/" ++ n).data.head? = some '/'),
      if_neg (by decide : ¬("tag" : String) = "newline")]


theorem layoutTagRunFrom_close_name (cfg : LayoutConfig) (n n' : String) :
    ∀ (pre : List (String × String)) (st : TagState) (post : List (String × String)),
      (layoutTagRunFrom cfg st (pre ++ ("tag", "/" ++ n) :: post)).toOption
        = (layoutTagRunFrom cfg st (pre ++ ("tag", "/" ++ n') :: post)).toOption := by
  intro pre
  induction pre with
  | nil =>
    intro st post
    simp only [List.nil_append, layoutTagRunFrom]
    rw [layoutTagStep_close, layoutTagStep_close]
    rcases htsl : st.tsl with _ | ⟨a, rest⟩
    · rfl
    · dsimp only
      by_cases hr : rest = []
      · rw [if_pos hr, if_pos hr]; rfl
      · rw [if_neg hr, if_neg hr]
  | cons tk pre' ih =>
    intro st post
    simp only [List.cons_append, layoutTagRunFrom]
    cases layoutTagStep cfg st tk with
    | error e => rfl
    | ok st' => exact ih st' post

/-- C2 (amended): a close tag `/NAME` pops exactly one style scope and the
machine fails only when the stack is already at root depth when it arrives;
the tag's name is never compared with the popped scope (name-mismatch
detection lives only in `check_text_tags`), so the whole pass behaves
identically — up to the text of a root-depth error message — when a close
tag's name is replaced by any other. -/
theorem C2_close_tag_pops_exactly_one (cfg : LayoutConfig) (n n' : String)
    (pre post : List (String × String)) (st : TagState) :
    ((layoutTagRunFrom cfg st (pre ++ ("tag", "/" ++ n) :: post)).toOption
       = (layoutTagRunFrom cfg st (pre ++ ("tag", "/" ++ n') :: post)).toOption)
    ∧ (2 ≤ st.tsl.length →
        layoutTagStep cfg st ("tag", "/" ++ n) = .ok { st with tsl := st.tsl.tail })
    ∧ (st.tsl.length = 1 →
        (layoutTagStep cfg st ("tag", "/" ++ n)).toOption = none) := by
  refine ⟨layoutTagRunFrom_close_name cfg n n' pre st post, ?_, ?_⟩
  · intro h2
    rw [layoutTagStep_close]
    rcases htsl : st.tsl with _ | ⟨a, rest⟩
    · rw [htsl] at h2
      simp at h2
    · rw [htsl] at h2
      have hr : rest ≠ [] := by
        intro hre
        rw [hre] at h2
        simp at h2
      dsimp only
      rw [if_neg hr]
      rfl
  · intro h1
    rw [layoutTagStep_close]
    rcases htsl : st.tsl with _ | ⟨a, rest⟩
    · rw [htsl] at h1
      simp at h1
    · rw [htsl] at h1
      have hr : rest = [] := by
        simp only [List.length_cons] at h1
        exact List.eq_nil_of_length_eq_zero (by omega)
      dsimp only
      rw [if_pos hr]
      rfl

/-- Witness for C2 (amended): from a stack of depth 2, the close tag `/i`
pops exactly one scope. -/
theorem C2_close_tag_pops_exactly_one_witness :
    layoutTagStep cfg0 ⟨[default, default], [], []⟩ ("tag", "/" ++ "i")
      = .ok ⟨[default], [], []⟩ :=
  (C2_close_tag_pops_exactly_one cfg0 "i" "q" [] []
    ⟨[default, default], [], []⟩).2.1 (by decide)


theorem foldl_preserve {σ α : Type _} (f : σ → α → σ) (P : σ → Prop)
    (hstep : ∀ s a, P s → P (f s a)) :
    ∀ (l : List α) (s : σ), P s → P (l.foldl f s) := by
  intro l
  induction l with
  | nil => intro s hs; exact hs
  | cons a rest ih =>
    intro s hs
    exact ih (f s a) (hstep s a hs)

theorem getElem?_some_lt {α : Type _} {l : List α} {n : Nat} {a : α}
    (h : l[n]? = some a) : n < l.length := by
  by_contra hn
  rw [List.getElem?_eq_none (by omega)] at h
  simp at h

theorem c9_flush_prop (st : GState) (h : C9P st) (b : Bool) :
    ∀ j L t, (st.lines ++ [st.line])[j]? = some L → L.head? = some t → isSpaceT t →
      j = 0 ∨ (st.lines_last ++ [b])[j - 1]? = some true := by
  obtain ⟨hlen, hflushed, hbuf, _⟩ := h
  intro j L t hL hhd hsp
  rcases lt_trichotomy j st.lines.length with hj | hj | hj
  · rw [List.getElem?_append_left hj] at hL
    rcases hflushed j L t hL hhd hsp with h0 | hprev
    · exact Or.inl h0
    · right
      rw [List.getElem?_append_left (getElem?_some_lt hprev)]
      exact hprev
  · subst hj
    rw [List.getElem?_concat_length] at hL
    obtain rfl : L = st.line := by injection hL with h; exact h.symm
    rcases hbuf t hhd hsp with hnil | hlast
    · left
      rw [hlen, hnil]
      rfl
    · right
      have hne : st.lines_last ≠ [] := by
        intro he
        rw [he] at hlast
        simp at hlast
      have hpos : 0 < st.lines_last.length := List.length_pos.mpr hne
      rw [List.getElem?_append_left (by omega)]
      rw [hlen, ← List.getLast?_eq_getElem?]
      exact hlast
  · have : (st.lines ++ [st.line])[j]? = none := by
      rw [List.getElem?_eq_none]
      simp only [List.length_append, List.length_cons, List.length_nil]
      omega
    rw [this] at hL
    simp at hL


theorem c9_step (w : Nat → String → Nat) (width ri : Int) (justify : Bool)
    (st : GState) (t : Triple) (h : C9P st) :
    C9P (greedyStep w width ri justify st t) := by
  by_cases hnl : (t.1 == "newline") = true
  · simp only [greedyStep, hnl, if_true]
    refine ⟨by simp [h.1], c9_flush_prop st h true, ?_, ?_⟩
    · intro t' hh _
      simp at hh
    · intro _
      right
      simp
  · by_cases hsp : (t.1 == "space") = true
    · simp only [greedyStep, hnl, hsp, if_false, if_true, Bool.false_eq_true]
      by_cases hskip : (st.line.isEmpty && !st.after_newline) = true
      · simp only [hskip, if_true]
        exact h
      · simp only [hskip, if_false, Bool.false_eq_true]
        refine ⟨h.1, h.2.1, ?_, h.2.2.2⟩
        intro t' hh hsp'
        cases hline : st.line with
        | nil =>
          have han : st.after_newline = true := by
            rw [hline] at hskip
            simp at hskip
            exact hskip
          exact h.2.2.2 han
        | cons a r =>
          apply h.2.2.1 t' _ hsp'
          rw [hline]
          rw [hline] at hh
          simpa using hh
    · by_cases hov : (layout_width w justify (st.line ++ [t]) : Int) > st.target
      · simp only [greedyStep, hnl, hsp, hov, if_true, if_false, Bool.false_eq_true]
        refine ⟨by simp [h.1], c9_flush_prop st h false, ?_, ?_⟩
        · intro t' hh hsp'
          simp at hh
          subst hh
          rw [isSpaceT] at hsp'
          exact absurd hsp' (by simpa using hsp)
        · intro hc
          simp at hc
      · simp only [greedyStep, hnl, hsp, hov, if_false, Bool.false_eq_true]
        refine ⟨h.1, h.2.1, ?_, ?_⟩
        · intro t' hh hsp'
          cases hline : st.line with
          | nil =>
            rw [hline] at hh
            simp at hh
            subst hh
            rw [isSpaceT] at hsp'
            exact absurd hsp' (by simpa using hsp)
          | cons a r =>
            apply h.2.2.1 t' _ hsp'
            rw [hline]
            rw [hline] at hh
            simpa using hh
        · intro hc
          simp at hc


theorem popTrailingButLast_getElem? (ls : List (List Triple)) :
    ∀ j, (popTrailingButLast ls)[j]? =
      if j + 1 < ls.length then (ls[j]?).map popOneTrailingSpace else ls[j]? := by
  induction ls with
  | nil => intro j; simp [popTrailingButLast]
  | cons l rest ih =>
    intro j
    cases rest with
    | nil =>
      rw [if_neg (by simp)]
      rfl
    | cons l2 r2 =>
      show (popOneTrailingSpace l :: popTrailingButLast (l2 :: r2))[j]? = _
      cases j with
      | zero =>
        rw [if_pos (by simp)]
        simp
      | succ j' =>
        have := ih j'
        simp only [List.getElem?_cons_succ, List.length_cons]
        rw [this]
        by_cases hj : j' + 1 < (l2 :: r2).length
        · rw [if_pos hj, if_pos (by simp at hj ⊢; omega)]
        · rw [if_neg hj, if_neg (by simp at hj ⊢; omega)]

theorem head?_popOneTrailingSpace {L : List Triple} {t : Triple}
    (h : (popOneTrailingSpace L).head? = some t) : L.head? = some t := by
  unfold popOneTrailingSpace at h
  cases hlast : L.getLast? with
  | none =>
    rw [hlast] at h
    exact h
  | some a =>
    rw [hlast] at h
    dsimp only at h
    by_cases hs : isSpaceT a
    · rw [if_pos hs] at h
      cases L with
      | nil => simp at h
      | cons x r =>
        cases r with
        | nil => simp at h
        | cons y r2 =>
          rw [List.dropLast_cons₂] at h
          simpa using h
    · rw [if_neg hs] at h
      exact h

/-- C9 (amended): a space triple is appended to the line buffer when the
buffer is non-empty or the machine is just after a forced line start
(`after_newline`, true initially and after every newline token), so an
emitted line can begin with a space triple only if it is the first line or
the line flushed immediately before it was newline-flushed
(paragraph-final). -/
theorem C9_space_heads_only_after_newline (w : Nat → String → Nat)
    (triples : List Triple) (width : Int) (style : TStyle)
    (j : Nat) (L : List Triple) (t : Triple)
    (hL : (greedy_text_layout w triples width style).1[j]? = some L)
    (hhd : L.head? = some t) (hsp : isSpaceT t) :
    j = 0 ∨ (greedy_text_layout w triples width style).2[j - 1]? = some true := by
  have hP : C9P (triples.foldl
      (greedyStep w width style.rest_indent style.justify)
      ⟨[], [], [], width - style.first_indent, true⟩) := by
    refine foldl_preserve _ C9P
      (fun s a hs => c9_step w width style.rest_indent style.justify s a hs)
      triples _ ⟨rfl, ?_, ?_, ?_⟩
    · intro j L t hL
      simp at hL
    · intro t hh
      simp at hh
    · intro _
      left
      rfl
  set stf := triples.foldl (greedyStep w width style.rest_indent style.justify)
      ⟨[], [], [], width - style.first_indent, true⟩ with hstf
  have hfst : (greedy_text_layout w triples width style).1
      = popTrailingButLast (stf.lines ++ [stf.line]) := rfl
  have hsnd : (greedy_text_layout w triples width style).2
      = stf.lines_last ++ [true] := rfl
  rw [hfst, popTrailingButLast_getElem?] at hL
  rw [hsnd]
  by_cases hj : j + 1 < (stf.lines ++ [stf.line]).length
  · rw [if_pos hj] at hL
    obtain ⟨L0, hL0, hpop⟩ := Option.map_eq_some'.mp hL
    have hhd0 : L0.head? = some t := by
      rw [← hpop] at hhd
      exact head?_popOneTrailingSpace hhd
    exact c9_flush_prop stf hP true j L0 t hL0 hhd0 hsp
  · rw [if_neg hj] at hL
    exact c9_flush_prop stf hP true j L t hL hhd hsp

/-- Counterexample to C9: after a newline token (and likewise at the start
of the input) `after_newline` is true, so a space triple is appended to the
empty buffer and the emitted line begins with a space. -/
theorem C9_space_starts_line_cx :
    greedy_text_layout lenw
        [("newline", 0, "\n"), ("space", 0, " "), ("word", 0, "a")] 100
        ⟨0, 0, false, 0⟩
      = ([[], [("space", 0, " "), ("word", 0, "a")]], [true, true])
    ∧ ((greedy_text_layout lenw
        [("newline", 0, "\n"), ("space", 0, " "), ("word", 0, "a")] 100
        ⟨0, 0, false, 0⟩).1.getD 1 []).head? = some ("space", 0, " ") := by
  refine ⟨by decide, by decide⟩

/-- Witness for C9 (amended) at the counterexample input: the line that
begins with a space is at index 1 and the line flushed before it was
newline-flushed (flag `true`). -/
theorem C9_space_heads_only_after_newline_witness :
    (1 = 0) ∨ (greedy_text_layout lenw
        [("newline", 0, "\n"), ("space", 0, " "), ("word", 0, "a")] 100
        ⟨0, 0, false, 0⟩).2[1 - 1]? = some true :=
  C9_space_heads_only_after_newline lenw
    [("newline", 0, "\n"), ("space", 0, " "), ("word", 0, "a")] 100
    ⟨0, 0, false, 0⟩ 1 [("space", 0, " "), ("word", 0, "a")] ("space", 0, " ")
    (by decide) (by decide) (by decide)


/-- C4 (amended): when the balanced-fill retry loop terminates, it does so
at the first `i` at or above its starting estimate for which the core pass
produces exactly `i` lines, returns exactly those lines, and the outcome is
deterministic (unchanged by surplus fuel); no bound ties `i` to the
paragraph's content length. -/
theorem C4_balanced_retry (w : Nat → String → Nat) (justify : Bool)
    (triples : List Triple) (width sumw : Int) :
    ∀ (fuel i0 i : Nat) (rv : List (List Triple)),
      subtitleRetry w justify triples width sumw fuel i0 = some (i, rv) →
      rv = subtitle_text_layout_core w justify triples width (sumw.fdiv i) i
      ∧ rv.length = i ∧ i0 ≤ i
      ∧ (∀ j, i0 ≤ j → j < i →
          (subtitle_text_layout_core w justify triples width (sumw.fdiv j) j).length ≠ j)
      ∧ (∀ fuel', fuel ≤ fuel' →
          subtitleRetry w justify triples width sumw fuel' i0 = some (i, rv)) := by
  intro fuel
  induction fuel with
  | zero =>
    intro i0 i rv h
    simp [subtitleRetry] at h
  | succ fuel ih =>
    intro i0 i rv h
    rw [subtitleRetry] at h
    by_cases hc : (subtitle_text_layout_core w justify triples width (sumw.fdiv i0) i0).length = i0
    · rw [if_pos hc] at h
      have hi : i0 = i ∧ subtitle_text_layout_core w justify triples width (sumw.fdiv i0) i0 = rv := by
        have := h
        simp at this
        exact ⟨this.1, this.2⟩
      obtain ⟨hi0, hrv⟩ := hi
      subst hi0
      refine ⟨hrv.symm, by rw [← hrv]; exact hc, le_rfl, ?_, ?_⟩
      · intro j hj1 hj2
        omega
      · intro fuel' hf
        cases fuel' with
        | zero => omega
        | succ f2 =>
          rw [subtitleRetry, if_pos hc, hrv]
    · rw [if_neg hc] at h
      obtain ⟨ha, hb, hc2, hd, he⟩ := ih (i0 + 1) i rv h
      refine ⟨ha, hb, by omega, ?_, ?_⟩
      · intro j hj1 hj2
        by_cases hji : j = i0
        · subst hji
          exact hc
        · exact hd j (by omega) hj2
      · intro fuel' hf
        cases fuel' with
        | zero => omega
        | succ f2 =>
          rw [subtitleRetry, if_neg hc]
          exact he f2 (by omega)

/-- Counterexample to C4: on the one-word paragraph `"aaaaa"` (content
length 1) with hard width 100 and soft width 2, the initial estimate is
already 2 and the loop converges with retry count `i = 2`, exceeding the
paragraph's content length. -/
theorem C4_retry_count_exceeds_content_length :
    subtitleEstimate (min 100 2) 5 10 1 = some 2
    ∧ subtitleRetry lenw false [("word", 0, "aaaaa")] 100 5 10 2
        = some (2, [[("word", 0, "aaaaa")], []])
    ∧ ([("word", (0 : Nat), "aaaaa")] : List Triple).length = 1 := by
  refine ⟨by decide, by decide, rfl⟩

/-- Witness for C4 (amended): the converging run at the counterexample
input returns the `i = 2` core pass result. -/
theorem C4_balanced_retry_witness :
    [[("word", (0 : Nat), "aaaaa")], ([] : List Triple)]
      = subtitle_text_layout_core lenw false [("word", 0, "aaaaa")] 100 ((5 : Int).fdiv 2) 2 :=
  (C4_balanced_retry lenw false [("word", 0, "aaaaa")] 100 5 1 2 2
    [[("word", 0, "aaaaa")], []] (by decide)).1

theorem strip_append_space {l : List Triple} {t : Triple} (h : isSpaceT t) :
    stripTrailingSpaces (l ++ [t]) = stripTrailingSpaces l := by
  unfold stripTrailingSpaces
  rw [List.reverse_append]
  simp [List.dropWhile_cons, h]

theorem strip_append_content {l : List Triple} {t : Triple} (h : ¬isSpaceT t) :
    stripTrailingSpaces (l ++ [t]) = l ++ [t] := by
  unfold stripTrailingSpaces
  rw [List.reverse_append]
  simp [List.dropWhile_cons, h]

theorem strip_nil : stripTrailingSpaces [] = [] := rfl

theorem strip_popOne (L : List Triple) :
    stripTrailingSpaces (popOneTrailingSpace L) = stripTrailingSpaces L := by
  unfold popOneTrailingSpace
  cases hlast : L.getLast? with
  | none => rfl
  | some a =>
    dsimp only
    by_cases hs : isSpaceT a
    · rw [if_pos hs]
      rcases List.eq_nil_or_concat L with rfl | ⟨init, b, rfl⟩
      · simp at hlast
      · rw [List.concat_eq_append] at hlast ⊢
        rw [List.getLast?_concat] at hlast
        obtain rfl : b = a := by injection hlast
        rw [List.dropLast_concat, strip_append_space hs]
    · rw [if_neg hs]


theorem c3_flush_prop (w : Nat → String → Nat) (justify : Bool) (T1 T2 : Int)
    (st : GState) (h : C3P w justify T1 T2 st) (b : Bool) :
    ∀ j L, (st.lines ++ [st.line])[j]? = some L →
      (st.lines_last ++ [b])[j]? = some false →
      (layout_width w justify (stripTrailingSpaces L) : Int) ≤ (if j = 0 then T1 else T2)
      ∨ (stripTrailingSpaces L).length ≤ 1 := by
  obtain ⟨hlen, htgt, hflushed, hbuf⟩ := h
  intro j L hL hF
  rcases lt_trichotomy j st.lines.length with hj | hj | hj
  · rw [List.getElem?_append_left hj] at hL
    rw [List.getElem?_append_left (by omega)] at hF
    exact hflushed j L hL hF
  · subst hj
    rw [List.getElem?_concat_length] at hL
    obtain rfl : L = st.line := by injection hL with hh; exact hh.symm
    rcases hbuf with hleft | hright
    · left
      rw [htgt] at hleft
      by_cases hnil : st.lines_last = []
      · rw [if_pos hnil] at hleft
        rw [if_pos (by rw [hlen, hnil]; rfl)]
        exact hleft
      · rw [if_neg hnil] at hleft
        rw [if_neg (fun h0 => hnil (List.length_eq_zero.mp (by omega)))]
        exact hleft
    · right
      exact hright
  · exfalso
    have hnone : (st.lines ++ [st.line])[j]? = none := by
      rw [List.getElem?_eq_none]
      simp only [List.length_append, List.length_cons, List.length_nil]
      omega
    rw [hnone] at hL
    simp at hL

theorem c3_step (w : Nat → String → Nat) (width ri : Int) (justify : Bool)
    (T1 : Int) (st : GState) (t : Triple)
    (h : C3P w justify T1 (width - ri) st) :
    C3P w justify T1 (width - ri) (greedyStep w width ri justify st t) := by
  obtain ⟨hlen, htgt, hflushed, hbuf⟩ := h
  by_cases hnl : (t.1 == "newline") = true
  · simp only [greedyStep, hnl, if_true]
    refine ⟨by simp [hlen], by rw [if_neg (by simp)], ?_, ?_⟩
    · exact c3_flush_prop w justify T1 (width - ri) st ⟨hlen, htgt, hflushed, hbuf⟩ true
    · right
      simp [strip_nil]
  · by_cases hsp : (t.1 == "space") = true
    · simp only [greedyStep, hnl, hsp, if_false, if_true, Bool.false_eq_true]
      by_cases hskip : (st.line.isEmpty && !st.after_newline) = true
      · simp only [hskip, if_true]
        exact ⟨hlen, htgt, hflushed, hbuf⟩
      · simp only [hskip, if_false, Bool.false_eq_true]
        refine ⟨hlen, htgt, hflushed, ?_⟩
        rw [strip_append_space hsp]
        exact hbuf
    · by_cases hov : (layout_width w justify (st.line ++ [t]) : Int) > st.target
      · simp only [greedyStep, hnl, hsp, hov, if_true, if_false, Bool.false_eq_true]
        refine ⟨by simp [hlen], by rw [if_neg (by simp)], ?_, ?_⟩
        · exact c3_flush_prop w justify T1 (width - ri) st ⟨hlen, htgt, hflushed, hbuf⟩ false
        · right
          rw [show ([t] : List Triple) = [] ++ [t] from rfl,
              strip_append_content (by simpa [isSpaceT] using hsp)]
          simp
      · simp only [greedyStep, hnl, hsp, hov, if_false, Bool.false_eq_true]
        refine ⟨hlen, htgt, hflushed, ?_⟩
        left
        rw [strip_append_content (by simpa [isSpaceT] using hsp)]
        dsimp only
        omega

/-- C3 (amended): every line the greedy breaker flushes as non-final fits
its target width (hard width minus the applicable indent) once all trailing
space triples are discarded, unless at most a single (unbreakably wide)
content triple remains; the emitted line itself may retain one overflowing
trailing space, since the code pops only one space per line and appends
spaces without any width check. -/
theorem C3_greedy_nonfinal_width_bound (w : Nat → String → Nat)
    (triples : List Triple) (width : Int) (style : TStyle)
    (j : Nat) (L : List Triple)
    (hL : (greedy_text_layout w triples width style).1[j]? = some L)
    (hflag : (greedy_text_layout w triples width style).2[j]? = some false) :
    (layout_width w style.justify (stripTrailingSpaces L) : Int)
      ≤ (if j = 0 then width - style.first_indent else width - style.rest_indent)
    ∨ (stripTrailingSpaces L).length ≤ 1 := by
  have hP : C3P w style.justify (width - style.first_indent) (width - style.rest_indent)
      (triples.foldl (greedyStep w width style.rest_indent style.justify)
        ⟨[], [], [], width - style.first_indent, true⟩) := by
    refine foldl_preserve _ _
      (fun s a hs => c3_step w width style.rest_indent style.justify
        (width - style.first_indent) s a hs)
      triples _ ⟨rfl, by simp, ?_, ?_⟩
    · intro j L hL'
      simp at hL'
    · right
      simp [strip_nil]
  set stf := triples.foldl (greedyStep w width style.rest_indent style.justify)
      ⟨[], [], [], width - style.first_indent, true⟩ with hstf
  have hfst : (greedy_text_layout w triples width style).1
      = popTrailingButLast (stf.lines ++ [stf.line]) := rfl
  have hsnd : (greedy_text_layout w triples width style).2
      = stf.lines_last ++ [true] := rfl
  rw [hfst, popTrailingButLast_getElem?] at hL
  rw [hsnd] at hflag
  by_cases hj : j + 1 < (stf.lines ++ [stf.line]).length
  · rw [if_pos hj] at hL
    obtain ⟨L0, hL0, hpop⟩ := Option.map_eq_some'.mp hL
    have hres := c3_flush_prop w style.justify _ _ stf hP true j L0 hL0 hflag
    rw [← hpop, strip_popOne]
    exact hres
  · rw [if_neg hj] at hL
    exact c3_flush_prop w style.justify _ _ stf hP true j L hL hflag

/-- Counterexample to C3: with unit character widths, a hard width of 10 and
no indents, the input word(10) space space word(1) flushes the first line as
non-final carrying a trailing space (only one of the two is stripped), so
its measured width is 11 > 10 although its only content triple measures
exactly 10. -/
theorem C3_trailing_space_overflow_cx :
    greedy_text_layout lenw
        [("word", 0, "aaaaaaaaaa"), ("space", 0, " "), ("space", 0, " "),
         ("word", 0, "b")] 10 ⟨0, 0, false, 0⟩
      = ([[("word", 0, "aaaaaaaaaa"), ("space", 0, " ")], [("word", 0, "b")]],
         [false, true])
    ∧ layout_width lenw false [("word", 0, "aaaaaaaaaa"), ("space", 0, " ")] = 11
    ∧ layout_width lenw false [("word", 0, "aaaaaaaaaa")] = 10 := by
  refine ⟨by decide, by decide, by decide⟩

/-- Witness for C3 (amended) at the counterexample input, line 0. -/
theorem C3_greedy_nonfinal_width_bound_witness :
    (layout_width lenw false
        (stripTrailingSpaces [("word", 0, "aaaaaaaaaa"), ("space", 0, " ")]) : Int)
      ≤ (if 0 = 0 then (10 : Int) - 0 else (10 : Int) - 0)
    ∨ (stripTrailingSpaces [("word", 0, "aaaaaaaaaa"), ("space", 0, " ")]).length ≤ 1 :=
  C3_greedy_nonfinal_width_bound lenw
    [("word", 0, "aaaaaaaaaa"), ("space", 0, " "), ("space", 0, " "), ("word", 0, "b")]
    10 ⟨0, 0, false, 0⟩ 0 [("word", 0, "aaaaaaaaaa"), ("space", 0, " ")]
    (by decide) (by decide)


/-- Counterexample to C7: tag tokens carry their name without the braces as
payload, so on the input `"{b}"` the concatenated payloads are `"b"`, not
the original string. -/
theorem C7_roundtrip_fails_on_tag_input :
    concatPayloads (text_tokenizer "\x7bb\x7d") = "b"
    ∧ concatPayloads (text_tokenizer "\x7bb\x7d") ≠ "\x7bb\x7d" := by
  refine ⟨by decide, by decide⟩

/-- C7 (amended): for every input string that contains no `{` character,
tokenizing with the Western grammar and concatenating the token payloads in
order reproduces the input exactly.  (Tag payloads drop their braces, `{{`
is shortened to `{`, and an unmatched `{` is skipped, so inputs containing
`{` need not round-trip.) -/
theorem C7_western_roundtrip_brace_free (s : String) (h : '{' ∉ s.data) :
    concatPayloads (text_tokenizer s) = s := by
  apply String.ext
  rw [concatPayloads, string_foldl_append]
  simp only [text_tokenizer, List.map_map]
  have hmap : ((wtok s.data).map ((fun t : String × String => t.2.data) ∘
      (fun t : String × List Char => (t.1, String.mk t.2))))
        = (wtok s.data).map (fun t => t.2) := by
    simp [Function.comp]
  rw [hmap, wtok_concat s.data h]
  simp

/-- Witness for C7 (amended) at the concrete brace-free input
`"hello  world\n"`. -/
theorem C7_western_roundtrip_brace_free_witness :
    concatPayloads (text_tokenizer "hello  world\n") = "hello  world\n" :=
  C7_western_roundtrip_brace_free "hello  world\n" (by decide)

end KSHD
